import Mathlib

/-
Shallow embedding of the spatial GHG downscaling pipeline of the
GHG-emission-map-for-Uzbekistan repository.

An Earth Engine image on the common analysis grid is modelled as a
function from cell index to an optional rational value: `none` models a
masked (no-data) pixel.  Earth Engine arithmetic propagates masking
(an operation on a masked pixel stays masked) and division by zero
masks the output pixel; `unmask(c)` replaces masked pixels by `c`;
`clip(geometry)` masks pixels outside the geometry; `reduceRegion`
with a sum reducer adds the values of the unmasked pixels inside the
region.  Real-valued cell data is modelled with exact rationals.
-/

namespace GHG

/-- A cell value: `none` is an Earth Engine masked (no-data) pixel. -/
abbrev Cell := Option ℚ

/-- A raster image on a fixed common grid of `n` cells. -/
def Raster (n : ℕ) := Fin n → Cell

/-- The country mask (the Uzbekistan polygon as an indicator on the grid). -/
def Mask (n : ℕ) := Fin n → Bool

/-- ee.Image.constant. -/
def constImg (n : ℕ) (c : ℚ) : Raster n := fun _ => some c

/-- Cell-wise image addition; masked if either operand is masked. -/
def addImg {n : ℕ} (a b : Raster n) : Raster n := fun i =>
  match a i, b i with
  | some x, some y => some (x + y)
  | _, _ => none

/-- Cell-wise image subtraction; masked if either operand is masked. -/
def subImg {n : ℕ} (a b : Raster n) : Raster n := fun i =>
  match a i, b i with
  | some x, some y => some (x - y)
  | _, _ => none

/-- Multiply an image by an ee.Number constant. -/
def mulC {n : ℕ} (a : Raster n) (c : ℚ) : Raster n := fun i =>
  (a i).map (fun v => v * c)

/-- Subtract an ee.Number (possibly null) from an image. -/
def subNum {n : ℕ} (a : Raster n) (x : Option ℚ) : Raster n := fun i =>
  match a i, x with
  | some v, some c => some (v - c)
  | _, _ => none

/-- Divide an image by an ee.Number: a null or zero divisor masks the output. -/
def divNum {n : ℕ} (a : Raster n) (x : Option ℚ) : Raster n := fun i =>
  match a i, x with
  | some v, some c => if c = 0 then none else some (v / c)
  | _, _ => none

/-- ee.Image.clamp(lo, hi). -/
def clampImg {n : ℕ} (lo hi : ℚ) (a : Raster n) : Raster n := fun i =>
  (a i).map (fun v => max lo (min hi v))

/-- ee.Image.max(c): cell-wise maximum with a constant. -/
def maxC {n : ℕ} (a : Raster n) (c : ℚ) : Raster n := fun i =>
  (a i).map (fun v => max v c)

/-- ee.Image.clip(geometry): masks every cell outside the mask. -/
def clip {n : ℕ} (a : Raster n) (m : Mask n) : Raster n := fun i =>
  if m i then a i else none

/-- ee.Image.unmask(c): replaces masked cells by the constant `c`. -/
def unmaskImg {n : ℕ} (a : Raster n) (c : ℚ) : Raster n := fun i =>
  some ((a i).getD c)

/-- reduceRegion with ee.Reducer.sum over a mask: masked cells contribute 0. -/
def sumRegion {n : ℕ} (a : Raster n) (m : Mask n) : ℚ :=
  ((List.finRange n).map (fun i => if m i then (a i).getD 0 else 0)).sum

/-- The unmasked values of a raster inside the mask, in grid order. -/
def maskedValues {n : ℕ} (a : Raster n) (m : Mask n) : List ℚ :=
  (List.finRange n).filterMap (fun i => if m i then a i else none)

/-- Nearest-rank index used to model the ee.Reducer.percentile estimate. -/
def rankIndex (q : ℚ) (len : ℕ) : ℕ :=
  min (Nat.floor (q * len)) (len - 1)

/-- reduceRegion with ee.Reducer.percentile at quantile `q` over the mask:
the value of nearest rank in the sorted list of unmasked values, null when
every cell in the region is masked. -/
def percentileQ {n : ℕ} (a : Raster n) (m : Mask n) (q : ℚ) : Option ℚ :=
  let s := List.insertionSort (· ≤ ·) (maskedValues a m)
  s.get? (rankIndex q s.length)

/-- robust_unit_scale from polygon_masked_spatial_ghg_analysis.py: quantile
scaling img.subtract(lo).divide(hi.subtract(lo)).clamp(0,1) with lo and hi
the q0 and q1 percentiles over the polygon.  There is no special case for
coinciding percentiles: the division is performed as written. -/
def robust_unit_scale {n : ℕ} (img : Raster n) (m : Mask n) (q0 q1 : ℚ) : Raster n :=
  let lo := percentileQ img m q0
  let hi := percentileQ img m q1
  clampImg 0 1 (divNum (subNum img lo) (Option.bind hi (fun h => (lo).map (fun l => h - l))))

/-- _sum_over_polygon from polygon_masked_spatial_ghg_analysis.py. -/
def sum_over_polygon {n : ℕ} (img : Raster n) (m : Mask n) : ℚ :=
  sumRegion img m

/-- _scale_to_total from polygon_masked_spatial_ghg_analysis.py: multiply by
target/src_sum, with the factor replaced by 0 when src_sum is non-positive
(ee.Algorithms.If(src_sum.lte(0), 0, scale)). -/
def scale_to_total {n : ℕ} (img : Raster n) (m : Mask n) (target : ℚ) : Raster n :=
  let srcSum := sum_over_polygon img m
  let scale : ℚ := if srcSum ≤ 0 then 0 else target / srcSum
  mulC img scale

/-- The normalization step of allocate_emissions_spatially in
robust_ghg_analysis.py: the allocation image is rescaled by
total_emission/total_allocated only when total_allocated > 0, and is
otherwise returned unchanged. -/
def normalize_allocation_robust {n : ℕ} (alloc : Raster n) (m : Mask n) (total : ℚ) : Raster n :=
  let totalAllocated := sumRegion alloc m
  if 0 < totalAllocated then mulC alloc (total / totalAllocated) else alloc

/-- The except-branch of allocate_emissions_spatially in
robust_ghg_analysis.py: when the region-sum query raises, the allocation is
multiplied by total_emission/1000000 as a simple fallback. -/
def fallback_allocation_robust {n : ℕ} (alloc : Raster n) (total : ℚ) : Raster n :=
  mulC alloc (total / 1000000)

/-- The three greenhouse gases handled by the pipeline. -/
inductive Gas where
  | CO2
  | CH4
  | N2O
deriving DecidableEq, Repr

/-- The gwp_factors table of _create_combined_emission_map in
enhanced_spatial_ghg_analysis.py: CO2 = 1, CH4 = 25, N2O = 298. -/
def gwp_factors : Gas → ℚ
  | Gas.CO2 => 1
  | Gas.CH4 => 25
  | Gas.N2O => 298

/-- _create_combined_emission_map from enhanced_spatial_ghg_analysis.py:
starts from a constant-zero image and adds gwp_factors[gas] times each
per-gas emission image. -/
def create_combined_emission_map {n : ℕ} (layers : List (Gas × Raster n)) : Raster n :=
  layers.foldl (fun acc gl => addImg acc (mulC gl.2 (gwp_factors gl.1))) (constImg n 0)

/-- _create_polygon_masked_combined_emission_map from
polygon_masked_spatial_ghg_analysis.py: starts from a constant-zero image
clipped to the polygon and adds each per-gas emission image directly, with
no GWP multiplier (the per-gas layers are already in Gg CO2e per pixel). -/
def create_polygon_masked_combined_emission_map {n : ℕ} (m : Mask n)
    (layers : List (Gas × Raster n)) : Raster n :=
  layers.foldl (fun acc gl => addImg acc gl.2) (clip (constImg n 0) m)

/-- A store of named layers: the union of the composite_indicators and
auxiliary_layers dictionaries, with composite_indicators taking priority in
the lookup, as in _create_polygon_masked_allocation. -/
def LayerStore (n : ℕ) := String → Option (Raster n)

/-- The sector_weights table of _create_polygon_masked_allocation in
polygon_masked_spatial_ghg_analysis.py, with the .get default of
population = 1.0 for unknown sector names. -/
def sector_weights (sector : String) : List (String × ℚ) :=
  if sector = "Energy Industries" then
    [("population", 2/10), ("urban_composite", 4/10), ("industrial_composite", 4/10)]
  else if sector = "Transport" then
    [("population", 3/10), ("urban_composite", 5/10), ("city_proximity", 2/10)]
  else if sector = "Agriculture" then
    [("population", 1/10), ("agricultural_composite", 8/10), ("urban_composite", -(1/10))]
  else if sector = "Manufacturing" then
    [("population", 1/10), ("urban_composite", 3/10), ("industrial_composite", 6/10)]
  else if sector = "Residential" then
    [("population", 7/10), ("urban_composite", 3/10), ("city_proximity", 0)]
  else
    [("population", 1)]

/-- The body of the weight loop of _create_polygon_masked_allocation: for
one (indicator, weight) pair, a zero weight or an indicator in neither
dictionary leaves the accumulator unchanged; a positive weight adds
layer*weight and a negative weight adds (1 - layer)*abs(weight). -/
def alloc_step {n : ℕ} (layers : LayerStore n) (acc : Raster n) (iw : String × ℚ) : Raster n :=
  if iw.2 = 0 then acc
  else
    match layers iw.1 with
    | none => acc
    | some L =>
      if 0 < iw.2 then addImg acc (mulC L iw.2)
      else addImg acc (mulC (subImg (constImg n 1) L) (abs iw.2))

/-- The inner per-sector loop of _create_polygon_masked_allocation: starts
from the constant 0.1 base clipped to the polygon, then folds the weight
loop over the (indicator, weight) pairs of the sector. -/
def sector_allocation {n : ℕ} (weights : List (String × ℚ)) (layers : LayerStore n)
    (m : Mask n) : Raster n :=
  weights.foldl (alloc_step layers) (clip (constImg n (1/10)) m)

/-- The value contributed at cell `i` by one (indicator, weight) pair of the
sector allocator, as described in the specification of the Sector
Allocator. -/
def weight_term {n : ℕ} (layers : LayerStore n) (i : Fin n) (iw : String × ℚ) : ℚ :=
  if iw.2 = 0 then 0
  else
    match layers iw.1 with
    | none => 0
    | some L => if 0 < iw.2 then (L i).getD 0 * iw.2 else (1 - (L i).getD 0) * |iw.2|

/-- The per-gas branch of allocate_emissions_spatially_with_polygon_mask in
polygon_masked_spatial_ghg_analysis.py: when an inventory prior raster is
available for the gas it is clamped to non-negative with max(0), clipped to
the polygon and rescaled to the IPCC total with _scale_to_total; otherwise
the composite-based allocation (already normalized to a probability
distribution) is multiplied by the total and clipped to the polygon. -/
def allocate_gas_polygon {n : ℕ} (m : Mask n) (prior : Option (Raster n))
    (alloc : Raster n) (total : ℚ) : Raster n :=
  match prior with
  | some p => scale_to_total (clip (maxC p 0) m) m total
  | none => clip (mulC alloc total) m

/-- The export preparation step shared by _export_auxiliary_layer and
_export_polygon_masked_emission_map: emission_image.unmask(0), replacing
every masked cell by the value 0 before the raster leaves the pipeline. -/
def export_image {n : ℕ} (a : Raster n) : Raster n :=
  unmaskImg a 0

/-- _create_urban_composite_robust from robust_ghg_analysis.py: 0.3 times
the raw nightlights layer (constant 1 when absent) plus optional 0.3, 0.2
and 0.2 times the esa_urban, modis_urban and dw_built layers. -/
def create_urban_composite_robust {n : ℕ} (layers : LayerStore n) : Raster n :=
  let base := mulC ((layers "nightlights").getD (constImg n 1)) (3/10)
  let base1 :=
    match layers "esa_urban" with
    | some L => addImg base (mulC L (3/10))
    | none => base
  let base2 :=
    match layers "modis_urban" with
    | some L => addImg base1 (mulC L (2/10))
    | none => base1
  match layers "dw_built" with
  | some L => addImg base2 (mulC L (2/10))
  | none => base2

/-- One inventory row as consumed by _create_sector_allocation in
robust_ghg_analysis.py. -/
structure SectorRecord where
  sector_type : String
  emission : ℚ

/-- The per-sector branch table of _create_sector_allocation in
robust_ghg_analysis.py (dictionary defaults written as .getD). -/
def sector_allocation_robust {n : ℕ} (aux comps : LayerStore n) (st : String) : Raster n :=
  if st = "Energy Industries" then
    addImg (addImg (mulC ((aux "population").getD (constImg n 100)) (4/10))
      (mulC ((comps "urban_composite").getD (constImg n (5/10))) (4/10)))
      (mulC ((comps "industrial_composite").getD (constImg n (5/10))) (2/10))
  else if st = "Transport" then
    addImg (mulC ((aux "population").getD (constImg n 100)) (5/10))
      (mulC ((comps "urban_composite").getD (constImg n (5/10))) (5/10))
  else if st = "Agriculture" then
    addImg (mulC ((comps "agricultural_composite").getD (constImg n (5/10))) (8/10))
      (mulC (subImg (constImg n 1) ((comps "urban_composite").getD (constImg n (3/10)))) (2/10))
  else if st = "Manufacturing" then
    addImg (mulC ((comps "industrial_composite").getD (constImg n (5/10))) (7/10))
      (mulC ((comps "urban_composite").getD (constImg n (5/10))) (3/10))
  else
    addImg (mulC ((aux "population").getD (constImg n 100)) (8/10))
      (mulC ((comps "urban_composite").getD (constImg n (5/10))) (2/10))

/-- _create_sector_allocation from robust_ghg_analysis.py: the weighted sum
over inventory rows of the per-sector allocation times emission/1000. -/
def create_sector_allocation {n : ℕ} (recs : List SectorRecord)
    (aux comps : LayerStore n) : Raster n :=
  recs.foldl (fun acc r =>
    addImg acc (mulC (sector_allocation_robust aux comps r.sector_type) (r.emission / 1000)))
    (constImg n 0)

/-- A Python value as passed to _classify_sector: None, a string, or a
non-string value such as a float. -/
inductive PyValue where
  | pynone
  | pystr (s : List Char)
  | pyother
deriving DecidableEq

/-- Containment of a needle in a haystack, modelling the Python test
`term in category_lower` on strings. -/
def containsSub (hay needle : List Char) : Bool :=
  (List.range (hay.length + 1)).any (fun k => (hay.drop k).take needle.length == needle)

/-- Python str.lower on the character list (ASCII case folding suffices for
the keyword tests). -/
def lowerStr (s : List Char) : List Char :=
  s.map Char.toLower

/-- Python `any(term in category_lower for term in terms)`. -/
def matchesAny (s : List Char) (terms : List (List Char)) : Bool :=
  terms.any (fun t => containsSub s t)

/-- The energy keyword list of _classify_sector. -/
def energyTerms : List (List Char) :=
  [String.toList "energy industries", String.toList "electricity", String.toList "power"]

/-- The transport keyword list of _classify_sector. -/
def transportTerms : List (List Char) :=
  [String.toList "transport", String.toList "road", String.toList "aviation",
    String.toList "navigation"]

/-- The agriculture keyword list of _classify_sector. -/
def agricultureTerms : List (List Char) :=
  [String.toList "enteric", String.toList "fermentation", String.toList "agriculture",
    String.toList "livestock", String.toList "soil"]

/-- The manufacturing keyword list of _classify_sector. -/
def manufacturingTerms : List (List Char) :=
  [String.toList "manufacturing", String.toList "industrial", String.toList "cement",
    String.toList "steel", String.toList "glass"]

/-- _classify_sector from polygon_masked_spatial_ghg_analysis.py (and the
identical copies in enhanced_spatial_ghg_analysis.py and
robust_ghg_analysis.py): None, NaN and non-string inputs fall to
Residential; otherwise the lower-cased category is tested against the
energy, transport, agriculture and manufacturing keyword lists in that
order, defaulting to Residential. -/
def classify_sector (v : PyValue) : String :=
  match v with
  | PyValue.pynone => "Residential"
  | PyValue.pyother => "Residential"
  | PyValue.pystr s =>
    let lower := lowerStr s
    if matchesAny lower energyTerms then "Energy Industries"
    else if matchesAny lower transportTerms then "Transport"
    else if matchesAny lower agricultureTerms then "Agriculture"
    else if matchesAny lower manufacturingTerms then "Manufacturing"
    else "Residential"

/-! ## Helper lemmas about region sums -/

theorem list_sum_mulC {n : ℕ} (a : Raster n) (m : Mask n) (c : ℚ) (l : List (Fin n)) :
    (l.map (fun i => if m i then ((mulC a c) i).getD 0 else 0)).sum
      = (l.map (fun i => if m i then (a i).getD 0 else 0)).sum * c := by
  induction l with
  | nil => simp
  | cons hd tl ih =>
    simp only [List.map_cons, List.sum_cons, ih]
    by_cases h : m hd
    · cases hv : a hd
      · simp [h, hv, mulC]
      · simp [h, hv, mulC]
        ring
    · simp [h]

theorem sumRegion_mulC {n : ℕ} (a : Raster n) (m : Mask n) (c : ℚ) :
    sumRegion (mulC a c) m = sumRegion a m * c :=
  list_sum_mulC a m c (List.finRange n)

theorem sumRegion_clip {n : ℕ} (a : Raster n) (m : Mask n) :
    sumRegion (clip a m) m = sumRegion a m := by
  unfold sumRegion
  have h : (fun i => if m i then ((clip a m) i).getD 0 else 0)
      = (fun i : Fin n => if m i then (a i).getD 0 else 0) := by
    funext i
    by_cases h : m i <;> simp [clip, h]
  rw [h]

/-! ## C1: mass conservation -/

/-- C1 (amended): mass conservation on the successful normalization path.
When the source mask-sum is positive, _scale_to_total returns a raster whose
mask-sum is exactly the target total, and the robust normalization step of
allocate_emissions_spatially returns a raster whose mask-sum is exactly the
gas total; the exception fallback (multiplication by total/1000000) is not
covered because it does not preserve the total. -/
theorem mass_conservation_amended {n : ℕ} (img alloc : Raster n) (m : Mask n) (T : ℚ)
    (h1 : 0 < sumRegion img m) (h2 : 0 < sumRegion alloc m) :
    sumRegion (scale_to_total img m T) m = T ∧
    sumRegion (normalize_allocation_robust alloc m T) m = T := by
  constructor
  · simp only [scale_to_total, sum_over_polygon]
    rw [if_neg (not_le.mpr h1), sumRegion_mulC]
    field_simp
  · simp only [normalize_allocation_robust]
    rw [if_pos h2, sumRegion_mulC]
    field_simp

/-- C1 witness: the amended mass-conservation theorem applied to a concrete
one-cell raster with value 2 and target total 7. -/
theorem mass_conservation_amended_witness :
    0 < sumRegion (fun _ => some 2 : Raster 1) (fun _ => true) ∧
    sumRegion (scale_to_total (fun _ => some 2 : Raster 1) (fun _ => true) 7)
      (fun _ => true) = 7 ∧
    sumRegion (normalize_allocation_robust (fun _ => some 2 : Raster 1) (fun _ => true) 7)
      (fun _ => true) = 7 :=
  ⟨by simp [sumRegion, List.finRange_succ, List.finRange_zero],
    mass_conservation_amended (fun _ => some 2) (fun _ => some 2) (fun _ => true) 7
      (by simp [sumRegion, List.finRange_succ, List.finRange_zero])
      (by simp [sumRegion, List.finRange_succ, List.finRange_zero])⟩

/-- C1 counterexample: the exception fallback of allocate_emissions_spatially
in robust_ghg_analysis.py multiplies by total/1000000, so on a one-cell
raster with value 1 and total 4 the produced mask-sum is 1/250000, which is
not within the relative tolerance 1e-6 * max(1, 4) of the total 4. -/
theorem mass_conservation_fallback_cex :
    ¬ (|sumRegion (fallback_allocation_robust (fun _ => some 1 : Raster 1) 4)
        (fun _ => true) - 4| ≤ (1/1000000) * max 1 4) := by
  have h : sumRegion (fallback_allocation_robust (fun _ => some 1 : Raster 1) 4)
      (fun _ => true) = 1/250000 := by
    simp [sumRegion, fallback_allocation_robust, mulC, List.finRange_succ, List.finRange_zero]
    norm_num
  rw [h]
  intro hle
  rw [abs_sub_comm, abs_of_pos (by norm_num)] at hle
  norm_num at hle

/-! ## C2: zero-sum safety of mass balancing -/

/-- C2 (amended): when the source mask-sum is non-positive, _scale_to_total
multiplies the raster by the constant 0, so every unmasked cell of the
result is exactly 0 and no division by zero is performed; the robust
variant of the rescale step in allocate_emissions_spatially instead leaves
the allocation raster unchanged (unscaled) in that case. -/
theorem zero_sum_safety_amended {n : ℕ} (img alloc : Raster n) (m : Mask n) (T : ℚ)
    (h1 : sumRegion img m ≤ 0) (h2 : sumRegion alloc m ≤ 0) :
    (∀ i, scale_to_total img m T i = (img i).map (fun _ => 0)) ∧
    normalize_allocation_robust alloc m T = alloc := by
  constructor
  · intro i
    unfold scale_to_total sum_over_polygon
    rw [if_pos h1]
    cases hv : img i <;> simp [mulC, hv]
  · unfold normalize_allocation_robust
    rw [if_neg (not_lt.mpr h2)]

/-- C2 witness: the amended zero-sum-safety theorem applied to a concrete
one-cell raster with value -1 and target total 5. -/
theorem zero_sum_safety_amended_witness :
    sumRegion (fun _ => some (-1) : Raster 1) (fun _ => true) ≤ 0 ∧
    (∀ i, scale_to_total (fun _ => some (-1) : Raster 1) (fun _ => true) 5 i
      = ((fun _ => some (-1) : Raster 1) i).map (fun _ => 0)) ∧
    normalize_allocation_robust (fun _ => some (-1) : Raster 1) (fun _ => true) 5
      = (fun _ => some (-1) : Raster 1) :=
  ⟨by simp [sumRegion, List.finRange_succ, List.finRange_zero],
    zero_sum_safety_amended (fun _ => some (-1)) (fun _ => some (-1)) (fun _ => true) 5
      (by simp [sumRegion, List.finRange_succ, List.finRange_zero])
      (by simp [sumRegion, List.finRange_succ, List.finRange_zero])⟩

/-- C2 counterexample: a one-cell raster with value -1 has mask-sum -1 ≤ 0,
yet the rescale step of allocate_emissions_spatially in
robust_ghg_analysis.py returns it unchanged, so the result is the unscaled
relative-weight raster with a cell equal to -1, not an all-zero raster. -/
theorem zero_sum_safety_cex :
    sumRegion (fun _ => some (-1) : Raster 1) (fun _ => true) ≤ 0 ∧
    normalize_allocation_robust (fun _ => some (-1) : Raster 1) (fun _ => true) 5 0
      = some (-1) ∧
    (some (-1 : ℚ)) ≠ some 0 := by
  refine ⟨?_, ?_, by simp⟩
  · simp [sumRegion, List.finRange_succ, List.finRange_zero]
  · have h : sumRegion (fun _ => some (-1) : Raster 1) (fun _ => true) ≤ 0 := by
      simp [sumRegion, List.finRange_succ, List.finRange_zero]
    simp only [normalize_allocation_robust]
    rw [if_neg (not_lt.mpr h)]

/-! ## C3: degenerate-layer behaviour of the robust normalizer -/

theorem maskedValues_all_eq {n : ℕ} (img : Raster n) (m : Mask n) (c : ℚ)
    (hc : ∀ i, img i = some c) : ∀ a ∈ maskedValues img m, a = c := by
  intro a ha
  simp only [maskedValues, List.mem_filterMap] at ha
  obtain ⟨i, _, hi⟩ := ha
  by_cases h : m i
  · rw [if_pos h, hc i] at hi
    exact (Option.some_injective ℚ hi).symm
  · rw [if_neg h] at hi
    exact absurd hi (Option.noConfusion)

theorem percentileQ_const {n : ℕ} (img : Raster n) (m : Mask n) (c : ℚ) (q : ℚ)
    (hc : ∀ i, img i = some c) (hne : maskedValues img m ≠ []) :
    percentileQ img m q = some c := by
  simp only [percentileQ]
  set s := List.insertionSort (· ≤ ·) (maskedValues img m) with hs
  have hperm : List.Perm s (maskedValues img m) := List.perm_insertionSort _ _
  have hlen : s.length = (maskedValues img m).length := hperm.length_eq
  have hpos : 0 < s.length := by
    rw [hlen]
    exact List.length_pos.mpr hne
  have hidx : rankIndex q s.length < s.length := by
    calc rankIndex q s.length ≤ s.length - 1 := min_le_right _ _
    _ < s.length := Nat.sub_lt hpos one_pos
  rw [List.get?_eq_get hidx]
  have hmem : s.get ⟨rankIndex q s.length, hidx⟩ ∈ maskedValues img m :=
    hperm.mem_iff.mp (List.get_mem s _ hidx)
  rw [maskedValues_all_eq img m c hc _ hmem]

theorem robust_unit_scale_const_masked {n : ℕ} (img : Raster n) (m : Mask n) (c q0 q1 : ℚ)
    (hc : ∀ i, img i = some c) (hne : maskedValues img m ≠ []) :
    ∀ i, robust_unit_scale img m q0 q1 i = none := by
  intro i
  simp only [robust_unit_scale]
  rw [percentileQ_const img m c q0 hc hne, percentileQ_const img m c q1 hc hne]
  simp [clampImg, divNum, subNum, hc i]

/-- C3 (amended): the robust_unit_scale of
polygon_masked_spatial_ghg_analysis.py has no special case for coinciding
percentiles.  For a constant layer the low and high quantiles are equal, so
the division (v - lo) / (hi - lo) is performed with a zero divisor; Earth
Engine masks pixels divided by zero, so the result is an all-masked
(no-data) raster — it contains no NaN or infinite values, but it is not the
all-zero raster the specification describes. -/
theorem degenerate_layer_all_masked {n : ℕ} (img : Raster n) (m : Mask n) (c q0 q1 : ℚ)
    (hc : ∀ i, img i = some c) (hne : maskedValues img m ≠ []) :
    ∀ i, robust_unit_scale img m q0 q1 i = none :=
  robust_unit_scale_const_masked img m c q0 q1 hc hne

/-- C3 witness: the amended degenerate-layer theorem applied to the constant
one-cell layer with value 5 and the default quantiles 0.02 and 0.98. -/
theorem degenerate_layer_all_masked_witness :
    (∀ i, (constImg 1 5) i = some 5) ∧
    maskedValues (constImg 1 5) (fun _ => true) ≠ [] ∧
    ∀ i, robust_unit_scale (constImg 1 5) (fun _ => true) (2/100) (98/100) i = none :=
  ⟨fun _ => rfl,
    by simp [maskedValues, List.finRange_succ, List.finRange_zero, constImg],
    degenerate_layer_all_masked (constImg 1 5) (fun _ => true) 5 (2/100) (98/100)
      (fun _ => rfl)
      (by simp [maskedValues, List.finRange_succ, List.finRange_zero, constImg])⟩

/-- C3 counterexample: normalizing the constant one-cell layer with value 5
yields a masked cell, not the value 0, so the claim that a degenerate
(constant) layer normalizes to an all-zero raster fails on the code. -/
theorem degenerate_layer_cex :
    robust_unit_scale (constImg 1 5) (fun _ => true) (2/100) (98/100) 0 ≠ some 0 := by
  have h : robust_unit_scale (constImg 1 5) (fun _ => true) (2/100) (98/100) 0 = none := by
    have hc : ∀ i, (constImg 1 5) i = some (5 : ℚ) := fun _ => rfl
    have hne : maskedValues (constImg 1 5) (fun _ => true) ≠ [] := by
      simp [maskedValues, List.finRange_succ, List.finRange_zero, constImg]
    exact robust_unit_scale_const_masked (constImg 1 5) (fun _ => true) 5 (2/100) (98/100)
      hc hne 0
  rw [h]
  simp

/-! ## C4: GWP combination -/

theorem list_sum_addImg {n : ℕ} (a b : Raster n) (m : Mask n)
    (ha : ∀ i, m i = true → (a i).isSome) (hb : ∀ i, m i = true → (b i).isSome)
    (l : List (Fin n)) :
    (l.map (fun i => if m i then ((addImg a b) i).getD 0 else 0)).sum
      = (l.map (fun i => if m i then (a i).getD 0 else 0)).sum
        + (l.map (fun i => if m i then (b i).getD 0 else 0)).sum := by
  induction l with
  | nil => simp
  | cons hd tl ih =>
    simp only [List.map_cons, List.sum_cons, ih]
    by_cases h : m hd
    · obtain ⟨va, hva⟩ := Option.isSome_iff_exists.mp (ha hd h)
      obtain ⟨vb, hvb⟩ := Option.isSome_iff_exists.mp (hb hd h)
      simp [h, addImg, hva, hvb]
      ring
    · simp [h]

theorem sumRegion_addImg {n : ℕ} (a b : Raster n) (m : Mask n)
    (ha : ∀ i, m i = true → (a i).isSome) (hb : ∀ i, m i = true → (b i).isSome) :
    sumRegion (addImg a b) m = sumRegion a m + sumRegion b m :=
  list_sum_addImg a b m ha hb (List.finRange n)

theorem sumRegion_const_zero {n : ℕ} (m : Mask n) :
    sumRegion (constImg n 0) m = 0 := by
  simp [sumRegion, constImg]

/-- C4 (amended): _create_combined_emission_map in
enhanced_spatial_ghg_analysis.py is the cell-wise sum of gwp[gas] times the
per-gas emission raster with CO2 = 1, CH4 = 25 and N2O = 298, and for the
gases CO2 and CH4 its mask-sum is T_CO2 * 1 + T_CH4 * 25 exactly; but this
does not hold for every combined-map construction in the pipeline:
_create_polygon_masked_combined_emission_map sums the per-gas rasters
directly with no GWP multiplier, because its per-gas layers are already in
CO2-equivalent units. -/
theorem gwp_combination_amended {n : ℕ} (r1 r2 : Raster n) (m : Mask n)
    (h1 : ∀ i, m i = true → (r1 i).isSome) (h2 : ∀ i, m i = true → (r2 i).isSome) :
    (∀ i v1 v2, r1 i = some v1 → r2 i = some v2 →
      create_combined_emission_map [(Gas.CO2, r1), (Gas.CH4, r2)] i
        = some (v1 * 1 + v2 * 25)) ∧
    sumRegion (create_combined_emission_map [(Gas.CO2, r1), (Gas.CH4, r2)]) m
      = sumRegion r1 m * 1 + sumRegion r2 m * 25 := by
  have hshape : create_combined_emission_map [(Gas.CO2, r1), (Gas.CH4, r2)]
      = addImg (addImg (constImg n 0) (mulC r1 1)) (mulC r2 25) := by
    simp [create_combined_emission_map, gwp_factors]
  constructor
  · intro i v1 v2 hv1 hv2
    rw [hshape]
    simp [addImg, mulC, constImg, hv1, hv2]
  · rw [hshape]
    have hinner : ∀ i, m i = true → ((addImg (constImg n 0) (mulC r1 1)) i).isSome := by
      intro i hi
      obtain ⟨v, hv⟩ := Option.isSome_iff_exists.mp (h1 i hi)
      simp [addImg, constImg, mulC, hv]
    have houter : ∀ i, m i = true → ((mulC r2 25) i).isSome := by
      intro i hi
      obtain ⟨v, hv⟩ := Option.isSome_iff_exists.mp (h2 i hi)
      simp [mulC, hv]
    have hr1 : ∀ i, m i = true → ((mulC r1 1) i).isSome := by
      intro i hi
      obtain ⟨v, hv⟩ := Option.isSome_iff_exists.mp (h1 i hi)
      simp [mulC, hv]
    rw [sumRegion_addImg _ _ m hinner houter,
      sumRegion_addImg (constImg n 0) (mulC r1 1) m (fun i _ => rfl) hr1,
      sumRegion_const_zero, sumRegion_mulC, sumRegion_mulC]
    ring

/-- C4 witness: the amended GWP theorem applied to concrete one-cell CO2 and
CH4 rasters with values 2 and 3. -/
theorem gwp_combination_amended_witness :
    create_combined_emission_map
      [(Gas.CO2, (fun _ => some 2 : Raster 1)), (Gas.CH4, (fun _ => some 3 : Raster 1))] 0
      = some (2 * 1 + 3 * 25) ∧
    sumRegion (create_combined_emission_map
      [(Gas.CO2, (fun _ => some 2 : Raster 1)), (Gas.CH4, (fun _ => some 3 : Raster 1))])
      (fun _ => true)
      = sumRegion (fun _ => some 2 : Raster 1) (fun _ => true) * 1
        + sumRegion (fun _ => some 3 : Raster 1) (fun _ => true) * 25 :=
  ⟨(gwp_combination_amended (fun _ => some 2) (fun _ => some 3) (fun _ => true)
      (fun _ _ => rfl) (fun _ _ => rfl)).1 0 2 3 rfl rfl,
    (gwp_combination_amended (fun _ => some 2) (fun _ => some 3) (fun _ => true)
      (fun _ _ => rfl) (fun _ _ => rfl)).2⟩

/-- C4 counterexample: the polygon-masked combined-map construction adds the
CH4 raster without its GWP multiplier, so a one-cell CH4 raster with value 1
yields a combined cell of 1, not gwp[CH4] * 1 = 25. -/
theorem gwp_combination_cex :
    create_polygon_masked_combined_emission_map (fun _ => true)
      [(Gas.CH4, (fun _ => some 1 : Raster 1))] 0 = some 1 ∧
    (some (1 : ℚ)) ≠ some (gwp_factors Gas.CH4 * 1) := by
  constructor
  · simp [create_polygon_masked_combined_emission_map, addImg, clip, constImg]
  · simp [gwp_factors]

/-! ## C5: inventory-prior substitution -/

/-- C5: when an inventory prior raster is available for a gas,
allocate_emissions_spatially_with_polygon_mask uses it directly as the
spatial weighting, clamped to non-negative with max(0) and clipped to the
polygon, and applies the same _scale_to_total step; when the clamped prior
has positive mask-sum the produced mask-sum equals the reported total, and
on the composite fallback path (normalized allocation with mask-sum 1) the
total is likewise preserved, so the scalar total is independent of the
weighting source. -/
theorem inventory_prior_substitution {n : ℕ} (m : Mask n) (p alloc : Raster n) (T : ℚ)
    (h1 : 0 < sumRegion (clip (maxC p 0) m) m) (h2 : sumRegion alloc m = 1) :
    allocate_gas_polygon m (some p) alloc T = scale_to_total (clip (maxC p 0) m) m T ∧
    sumRegion (allocate_gas_polygon m (some p) alloc T) m = T ∧
    sumRegion (allocate_gas_polygon m none alloc T) m = T := by
  refine ⟨rfl, ?_, ?_⟩
  · show sumRegion (scale_to_total (clip (maxC p 0) m) m T) m = T
    simp only [scale_to_total, sum_over_polygon]
    rw [if_neg (not_le.mpr h1), sumRegion_mulC]
    field_simp
  · show sumRegion (clip (mulC alloc T) m) m = T
    rw [sumRegion_clip, sumRegion_mulC, h2, one_mul]

/-- C5 witness: the inventory-prior theorem applied to a concrete one-cell
prior with value 3, a normalized one-cell allocation, and total 7. -/
theorem inventory_prior_substitution_witness :
    0 < sumRegion (clip (maxC (fun _ => some 3 : Raster 1) 0) (fun _ => true))
      (fun _ => true) ∧
    sumRegion (fun _ => some 1 : Raster 1) (fun _ => true) = 1 ∧
    sumRegion (allocate_gas_polygon (fun _ => true) (some (fun _ => some 3 : Raster 1))
      (fun _ => some 1) 7) (fun _ => true) = 7 ∧
    sumRegion (allocate_gas_polygon (fun _ => true) none
      (fun _ => some 1 : Raster 1) 7) (fun _ => true) = 7 :=
  ⟨by simp [sumRegion, clip, maxC, List.finRange_succ, List.finRange_zero],
    by simp [sumRegion, List.finRange_succ, List.finRange_zero],
    (inventory_prior_substitution (fun _ => true) (fun _ => some 3) (fun _ => some 1) 7
      (by simp [sumRegion, clip, maxC, List.finRange_succ, List.finRange_zero])
      (by simp [sumRegion, List.finRange_succ, List.finRange_zero])).2.1,
    (inventory_prior_substitution (fun _ => true) (fun _ => some 3) (fun _ => some 1) 7
      (by simp [sumRegion, clip, maxC, List.finRange_succ, List.finRange_zero])
      (by simp [sumRegion, List.finRange_succ, List.finRange_zero])).2.2⟩

/-! ## C6: sector allocator formula and positive floor -/

theorem weight_term_nonneg {n : ℕ} (layers : LayerStore n) (i : Fin n)
    (Hlay : ∀ nm L, layers nm = some L → ∃ v, L i = some v ∧ 0 ≤ v ∧ v ≤ 1)
    (iw : String × ℚ) : 0 ≤ weight_term layers i iw := by
  unfold weight_term
  by_cases h0 : iw.2 = 0
  · simp [h0]
  · rw [if_neg h0]
    cases hL : layers iw.1 with
    | none => simp
    | some L =>
      obtain ⟨v, hv, hv0, hv1⟩ := Hlay iw.1 L hL
      dsimp only
      by_cases hpos : 0 < iw.2
      · rw [if_pos hpos, hv]
        exact mul_nonneg hv0 (le_of_lt hpos)
      · rw [if_neg hpos, hv]
        exact mul_nonneg (by simpa using hv1) (abs_nonneg _)

theorem alloc_step_foldl {n : ℕ} (layers : LayerStore n) (i : Fin n)
    (Hlay : ∀ nm L, layers nm = some L → ∃ v, L i = some v ∧ 0 ≤ v ∧ v ≤ 1) :
    ∀ (ws : List (String × ℚ)) (acc : Raster n) (a : ℚ), acc i = some a →
      (ws.foldl (alloc_step layers) acc) i
        = some (a + (ws.map (weight_term layers i)).sum) := by
  intro ws
  induction ws with
  | nil =>
    intro acc a ha
    simpa using ha
  | cons hd tl ih =>
    intro acc a ha
    simp only [List.foldl_cons, List.map_cons, List.sum_cons]
    have hstep : ∃ b, (alloc_step layers acc hd) i = some b ∧
        b = a + weight_term layers i hd := by
      unfold alloc_step weight_term
      by_cases h0 : hd.2 = 0
      · exact ⟨a, by simp [h0, ha], by simp [h0]⟩
      · rw [if_neg h0, if_neg h0]
        cases hL : layers hd.1 with
        | none => exact ⟨a, by simpa using ha, by simp⟩
        | some L =>
          obtain ⟨v, hv, _, _⟩ := Hlay hd.1 L hL
          dsimp only
          by_cases hpos : 0 < hd.2
          · refine ⟨a + v * hd.2, ?_, by rw [if_pos hpos, hv]; simp⟩
            rw [if_pos hpos]
            simp [addImg, mulC, ha, hv]
          · refine ⟨a + (1 - v) * |hd.2|, ?_, by rw [if_neg hpos, hv]; simp⟩
            rw [if_neg hpos]
            simp [addImg, mulC, subImg, constImg, ha, hv]
    obtain ⟨b, hb, hbeq⟩ := hstep
    rw [ih (alloc_step layers acc hd) b hb, hbeq, add_assoc]

/-- C6: for every weight table (in particular every row of the
sector_weights table), the polygon-masked sector allocator starts from the
uniform 0.1 floor and adds, for each (indicator, coefficient) pair with a
nonzero coefficient and an available indicator layer, coefficient*layer for
positive coefficients and abs(coefficient)*(1 - layer) for negative ones;
when the available layers have values in [0, 1], every mask cell of the
result is strictly positive. -/
theorem sector_allocator_formula_and_floor {n : ℕ} (weights : List (String × ℚ))
    (layers : LayerStore n) (m : Mask n) (i : Fin n) (hm : m i = true)
    (Hlay : ∀ nm L, layers nm = some L → ∃ v, L i = some v ∧ 0 ≤ v ∧ v ≤ 1) :
    sector_allocation weights layers m i
      = some (1/10 + (weights.map (weight_term layers i)).sum) ∧
    0 < 1/10 + (weights.map (weight_term layers i)).sum := by
  constructor
  · unfold sector_allocation
    exact alloc_step_foldl layers i Hlay weights (clip (constImg n (1/10)) m) (1/10)
      (by simp [clip, constImg, hm])
  · have hsum : 0 ≤ (weights.map (weight_term layers i)).sum :=
      List.sum_nonneg (by
        intro x hx
        obtain ⟨iw, _, hiw⟩ := List.mem_map.mp hx
        rw [← hiw]
        exact weight_term_nonneg layers i Hlay iw)
    linarith

/-- C6 witness: the sector-allocator theorem applied to the Agriculture row
of the sector_weights table with a single available population layer of
constant value 1/2 on a one-cell grid. -/
theorem sector_allocator_formula_and_floor_witness :
    sector_allocation (sector_weights "Agriculture")
      (fun nm => if nm = "population" then some (fun _ => some (1/2) : Raster 1) else none)
      (fun _ => true) 0
      = some (1/10 + ((sector_weights "Agriculture").map
          (weight_term (fun nm => if nm = "population"
            then some (fun _ => some (1/2) : Raster 1) else none) 0)).sum) ∧
    0 < 1/10 + ((sector_weights "Agriculture").map
        (weight_term (fun nm => if nm = "population"
          then some (fun _ => some (1/2) : Raster 1) else none) 0)).sum :=
  sector_allocator_formula_and_floor (sector_weights "Agriculture")
    (fun nm => if nm = "population" then some (fun _ => some (1/2)) else none)
    (fun _ => true) 0 rfl
    (by
      intro nm L h
      by_cases hn : nm = "population"
      · simp only [hn, if_true, Option.some.injEq] at h
        exact ⟨1/2, by rw [← h], by norm_num, by norm_num⟩
      · simp [hn] at h)

/-! ## C7: non-negativity -/

/-- C7 (amended): on the polygon-masked inventory-prior path every produced
emission cell is non-negative, because the prior is clamped with max(0) and
the mass-balance factor is non-negative for a non-negative total; the
robust variant is not covered because its composites use the raw
night-light radiance without clamping, so negative radiance propagates into
allocation and emission rasters. -/
theorem non_negativity_amended {n : ℕ} (m : Mask n) (p alloc : Raster n) (T : ℚ)
    (hT : 0 ≤ T) :
    ∀ i v, allocate_gas_polygon m (some p) alloc T i = some v → 0 ≤ v := by
  intro i v hv
  simp only [allocate_gas_polygon, scale_to_total, sum_over_polygon, mulC] at hv
  cases hc : clip (maxC p 0) m i with
  | none => rw [hc] at hv; exact absurd hv (Option.noConfusion)
  | some w =>
    rw [hc] at hv
    simp only [Option.map_some'] at hv
    have hw : 0 ≤ w := by
      simp only [clip] at hc
      by_cases hm : m i
      · rw [if_pos hm] at hc
        simp only [maxC] at hc
        cases hp : p i with
        | none => rw [hp] at hc; exact absurd hc (Option.noConfusion)
        | some x =>
          rw [hp] at hc
          simp only [Option.map_some', Option.some.injEq] at hc
          rw [← hc]
          exact le_max_right x 0
      · rw [if_neg hm] at hc
        exact absurd hc (Option.noConfusion)
    have hscale : 0 ≤ (if sumRegion (clip (maxC p 0) m) m ≤ 0 then 0
        else T / sumRegion (clip (maxC p 0) m) m) := by
      by_cases hs : sumRegion (clip (maxC p 0) m) m ≤ 0
      · rw [if_pos hs]
      · rw [if_neg hs]
        exact div_nonneg hT (le_of_lt (lt_of_not_le hs))
    have hveq : w * (if sumRegion (clip (maxC p 0) m) m ≤ 0 then 0
        else T / sumRegion (clip (maxC p 0) m) m) = v := Option.some_injective _ hv
    rw [← hveq]
    exact mul_nonneg hw hscale

/-- C7 witness: the amended non-negativity theorem applied to a concrete
one-cell prior with value 3 and total 7, whose produced cell value is 7. -/
theorem non_negativity_amended_witness :
    (0 : ℚ) ≤ 7 ∧
    allocate_gas_polygon (fun _ => true) (some (fun _ => some 3 : Raster 1))
      (fun _ => some 1) 7 0 = some 7 ∧
    (0 : ℚ) ≤ 7 := by
  have hcell : allocate_gas_polygon (fun _ => true) (some (fun _ => some 3 : Raster 1))
      (fun _ => some 1) 7 0 = some 7 := by
    have hsum : sumRegion (clip (maxC (fun _ => some 3 : Raster 1) 0) (fun _ => true))
        (fun _ => true) = 3 := by
      simp [sumRegion, clip, maxC, List.finRange_succ, List.finRange_zero]
    simp only [allocate_gas_polygon, scale_to_total, sum_over_polygon, hsum]
    norm_num [mulC, clip, maxC]
  exact ⟨by norm_num, hcell,
    non_negativity_amended (fun _ => true) (fun _ => some 3) (fun _ => some 1) 7
      (by norm_num) 0 7 hcell⟩

/-- The concrete auxiliary-layer store of the C7 counterexample: a constant
zero population layer and a constant nightlights layer with the radiance
value -1 (VIIRS radiance can be negative). -/
def auxExample : LayerStore 1 := fun nm =>
  if nm = "population" then some (constImg 1 0)
  else if nm = "nightlights" then some (constImg 1 (-1))
  else none

/-- The concrete composite store of the C7 counterexample: the urban
composite built by _create_urban_composite_robust from auxExample. -/
def compsExample : LayerStore 1 := fun nm =>
  if nm = "urban_composite" then some (create_urban_composite_robust auxExample)
  else none

/-- C7 counterexample: with a nightlights layer holding the radiance -1,
the robust urban composite has the cell value -3/10, the Transport
allocation of _create_sector_allocation has the cell value -3/20 < 0, and
because its mask-sum is non-positive the rescale step returns it unchanged,
so the robust pipeline produces an emission raster with a negative cell. -/
theorem non_negativity_cex :
    create_urban_composite_robust auxExample 0 = some (-(3/10)) ∧
    normalize_allocation_robust
      (create_sector_allocation [⟨"Transport", 1000⟩] auxExample compsExample)
      (fun _ => true) 1000 0 = some (-(3/20)) ∧
    (-(3/20) : ℚ) < 0 := by
  have hurb : ∀ i, create_urban_composite_robust auxExample i = some (-(3/10)) := by
    intro i
    simp [create_urban_composite_robust, auxExample, mulC, constImg]
  have halloc : ∀ i, create_sector_allocation [⟨"Transport", 1000⟩] auxExample compsExample i
      = some (-(3/20)) := by
    intro i
    have hurbi := hurb i
    simp [create_sector_allocation, sector_allocation_robust, auxExample, compsExample,
      create_urban_composite_robust, addImg, mulC, constImg]
    norm_num
  have hsum : sumRegion (create_sector_allocation [⟨"Transport", 1000⟩] auxExample compsExample)
      (fun _ => true) = -(3/20) := by
    simp [sumRegion, List.finRange_succ, List.finRange_zero, halloc]
  refine ⟨hurb 0, ?_, by norm_num⟩
  simp only [normalize_allocation_robust, hsum]
  rw [if_neg (by norm_num)]
  exact halloc 0

/-! ## C8: outside-mask neutrality -/

theorem foldl_addImg_none {n : ℕ} (i : Fin n) :
    ∀ (layers : List (Gas × Raster n)) (acc : Raster n), acc i = none →
      (layers.foldl (fun acc gl => addImg acc gl.2) acc) i = none := by
  intro layers
  induction layers with
  | nil =>
    intro acc ha
    simpa using ha
  | cons hd tl ih =>
    intro acc ha
    simp only [List.foldl_cons]
    refine ih _ ?_
    cases hb : hd.2 i <;> simp [addImg, ha, hb]

/-- C8: every raster the polygon-masked pipeline exports is unmasked with
the fill value 0 after being clipped to the country polygon, so every grid
cell outside the country mask carries the value exactly 0 (not a no-data
marker): this holds for auxiliary layers, for both branches of the per-gas
emission maps, and for the combined emission map. -/
theorem outside_mask_neutrality {n : ℕ} (img alloc p : Raster n) (m : Mask n) (T : ℚ)
    (layers : List (Gas × Raster n)) (i : Fin n) (hi : m i = false) :
    export_image (clip img m) i = some 0 ∧
    export_image (allocate_gas_polygon m (some p) alloc T) i = some 0 ∧
    export_image (allocate_gas_polygon m none alloc T) i = some 0 ∧
    export_image (create_polygon_masked_combined_emission_map m layers) i = some 0 := by
  refine ⟨?_, ?_, ?_, ?_⟩
  · simp [export_image, unmaskImg, clip, hi]
  · simp [export_image, unmaskImg, allocate_gas_polygon, scale_to_total, sum_over_polygon,
      mulC, clip, hi]
  · simp [export_image, unmaskImg, allocate_gas_polygon, mulC, clip, hi]
  · have h : create_polygon_masked_combined_emission_map m layers i = none := by
      unfold create_polygon_masked_combined_emission_map
      exact foldl_addImg_none i layers (clip (constImg n 0) m) (by simp [clip, hi])
    simp [export_image, unmaskImg, h]

/-- C8 witness: the outside-mask theorem applied on a one-cell grid with an
all-false mask and concrete rasters. -/
theorem outside_mask_neutrality_witness :
    (fun _ => false : Mask 1) 0 = false ∧
    export_image (clip (fun _ => some 5 : Raster 1) (fun _ => false)) 0 = some 0 ∧
    export_image (create_polygon_masked_combined_emission_map (fun _ => false)
      [(Gas.CO2, (fun _ => some 5 : Raster 1))]) 0 = some 0 :=
  ⟨rfl,
    (outside_mask_neutrality (fun _ => some 5) (fun _ => some 5) (fun _ => some 5)
      (fun _ => false) 7 [(Gas.CO2, (fun _ => some 5))] 0 rfl).1,
    (outside_mask_neutrality (fun _ => some 5) (fun _ => some 5) (fun _ => some 5)
      (fun _ => false) 7 [(Gas.CO2, (fun _ => some 5))] 0 rfl).2.2.2⟩

/-! ## C9: idempotence of robust normalization -/

theorem percentileQ_of_nil {n : ℕ} (a : Raster n) (m : Mask n) (q : ℚ)
    (h : maskedValues a m = []) : percentileQ a m q = none := by
  simp [percentileQ, h]

theorem percentileQ_of_ne_nil {n : ℕ} (a : Raster n) (m : Mask n) (q : ℚ)
    (h : maskedValues a m ≠ []) : ∃ c, percentileQ a m q = some c := by
  simp only [percentileQ]
  set s := List.insertionSort (· ≤ ·) (maskedValues a m) with hs
  have hpos : 0 < s.length := by
    rw [(List.perm_insertionSort _ _).length_eq]
    exact List.length_pos.mpr h
  have hidx : rankIndex q s.length < s.length :=
    lt_of_le_of_lt (min_le_right _ _) (Nat.sub_lt hpos one_pos)
  exact ⟨_, List.get?_eq_get hidx⟩

theorem maskedValues_all_none {n : ℕ} (a : Raster n) (m : Mask n)
    (h : ∀ i, a i = none) : maskedValues a m = [] := by
  simp only [maskedValues, List.filterMap_eq_nil_iff]
  intro i _
  by_cases hm : m i <;> simp [hm, h i]

theorem maskedValues_map_g {n : ℕ} (a : Raster n) (m : Mask n) (g : ℚ → ℚ) :
    maskedValues (fun i => (a i).map g) m = (maskedValues a m).map g := by
  simp only [maskedValues, List.map_filterMap]
  congr 1
  funext i
  by_cases hm : m i <;> simp [hm]

theorem insertionSort_map_mono (g : ℚ → ℚ) (hg : Monotone g) (l : List ℚ) :
    List.insertionSort (· ≤ ·) (l.map g)
      = (List.insertionSort (· ≤ ·) l).map g := by
  have hperm : List.Perm (List.insertionSort (· ≤ ·) (l.map g))
      ((List.insertionSort (· ≤ ·) l).map g) :=
    (List.perm_insertionSort _ _).trans ((List.perm_insertionSort (· ≤ ·) l).map g).symm
  have h1 : List.Sorted (· ≤ ·) (List.insertionSort (· ≤ ·) (l.map g)) :=
    List.sorted_insertionSort _ _
  have h2 : List.Sorted (· ≤ ·) ((List.insertionSort (· ≤ ·) l).map g) :=
    List.Pairwise.map g (fun p r hpr => hg hpr) (List.sorted_insertionSort _ l)
  exact List.eq_of_perm_of_sorted hperm h1 h2

theorem percentileQ_map_mono {n : ℕ} (a : Raster n) (m : Mask n) (g : ℚ → ℚ)
    (hg : Monotone g) (q : ℚ) :
    percentileQ (fun i => (a i).map g) m q = (percentileQ a m q).map g := by
  simp only [percentileQ]
  rw [maskedValues_map_g, insertionSort_map_mono g hg, List.length_map, List.get?_map]

theorem percentileQ_mono_q {n : ℕ} (a : Raster n) (m : Mask n) {q0 q1 x y : ℚ}
    (hq : q0 ≤ q1)
    (hx : percentileQ a m q0 = some x) (hy : percentileQ a m q1 = some y) :
    x ≤ y := by
  simp only [percentileQ] at hx hy
  set s := List.insertionSort (· ≤ ·) (maskedValues a m) with hs
  have hi0 : rankIndex q0 s.length < s.length := by
    by_contra hcon
    rw [List.get?_eq_none.mpr (le_of_not_lt hcon)] at hx
    exact absurd hx (Option.noConfusion)
  have hi1 : rankIndex q1 s.length < s.length := by
    by_contra hcon
    rw [List.get?_eq_none.mpr (le_of_not_lt hcon)] at hy
    exact absurd hy (Option.noConfusion)
  rw [List.get?_eq_get hi0] at hx
  rw [List.get?_eq_get hi1] at hy
  have hle : rankIndex q0 s.length ≤ rankIndex q1 s.length := by
    apply min_le_min _ le_rfl
    apply Nat.floor_le_floor
    have : (0 : ℚ) ≤ (s.length : ℚ) := Nat.cast_nonneg _
    nlinarith
  have hsorted : List.Sorted (· ≤ ·) s := List.sorted_insertionSort _ _
  have := hsorted.rel_get_of_le (a := ⟨rankIndex q0 s.length, hi0⟩)
    (b := ⟨rankIndex q1 s.length, hi1⟩) hle
  rw [Option.some_injective _ hx, Option.some_injective _ hy] at this
  exact this

theorem robust_unit_scale_lo_none {n : ℕ} (y : Raster n) (m : Mask n) (q0 q1 : ℚ)
    (h : percentileQ y m q0 = none) : ∀ i, robust_unit_scale y m q0 q1 i = none := by
  intro i
  cases hyi : y i <;> simp [robust_unit_scale, clampImg, divNum, subNum, h, hyi]

theorem robust_unit_scale_identity_of_unit {n : ℕ} (y : Raster n) (m : Mask n) (q0 q1 : ℚ)
    (hlo : percentileQ y m q0 = some 0) (hhi : percentileQ y m q1 = some 1)
    (hcell : ∀ i v, y i = some v → 0 ≤ v ∧ v ≤ 1) :
    robust_unit_scale y m q0 q1 = y := by
  funext i
  cases hyi : y i with
  | none => simp [robust_unit_scale, clampImg, divNum, subNum, hlo, hhi, hyi]
  | some w =>
    obtain ⟨h0, h1⟩ := hcell i w hyi
    simp only [robust_unit_scale, clampImg, divNum, subNum, hlo, hhi, hyi,
      Option.bind_some, Option.map_some', sub_zero]
    rw [if_neg (one_ne_zero)]
    simp only [Option.map_some', div_one]
    rw [min_eq_right h1, max_eq_right h0]

/-- C9: the quantile-clip normalization of robust_unit_scale is idempotent:
applying it twice yields exactly the same raster as applying it once, for
every input raster (in particular for rasters with values in [0, 1]).  When
the first pass is non-degenerate the quantiles of the output are exactly 0
and 1 so the second pass is the identity on it; when the first pass is
degenerate (empty region or equal quantiles) both passes give the
all-masked raster. -/
theorem normalization_idempotent {n : ℕ} (x : Raster n) (m : Mask n) :
    robust_unit_scale (robust_unit_scale x m (2/100) (98/100)) m (2/100) (98/100)
      = robust_unit_scale x m (2/100) (98/100) := by
  by_cases hnil : maskedValues x m = []
  · have hlo := percentileQ_of_nil x m (2/100) hnil
    have hy : ∀ i, robust_unit_scale x m (2/100) (98/100) i = none :=
      robust_unit_scale_lo_none x m _ _ hlo
    have hmv : maskedValues (robust_unit_scale x m (2/100) (98/100)) m = [] :=
      maskedValues_all_none _ m hy
    have hlo2 := percentileQ_of_nil (robust_unit_scale x m (2/100) (98/100)) m (2/100) hmv
    funext i
    rw [robust_unit_scale_lo_none _ m _ _ hlo2 i, hy i]
  · obtain ⟨a, ha⟩ := percentileQ_of_ne_nil x m (2/100) hnil
    obtain ⟨b, hb⟩ := percentileQ_of_ne_nil x m (98/100) hnil
    have hab : a ≤ b := percentileQ_mono_q x m (by norm_num) ha hb
    by_cases hba : b - a = 0
    · have hy : ∀ i, robust_unit_scale x m (2/100) (98/100) i = none := by
        intro i
        cases hxi : x i <;>
          simp [robust_unit_scale, clampImg, divNum, subNum, ha, hb, hxi, hba]
      have hmv : maskedValues (robust_unit_scale x m (2/100) (98/100)) m = [] :=
        maskedValues_all_none _ m hy
      have hlo2 := percentileQ_of_nil (robust_unit_scale x m (2/100) (98/100)) m (2/100) hmv
      funext i
      rw [robust_unit_scale_lo_none _ m _ _ hlo2 i, hy i]
    · have hba2 : 0 < b - a := lt_of_le_of_ne (by linarith) (Ne.symm hba)
      have hy : robust_unit_scale x m (2/100) (98/100)
          = fun i => (x i).map (fun v => max 0 (min 1 ((v - a)/(b - a)))) := by
        funext i
        cases hxi : x i <;>
          simp [robust_unit_scale, clampImg, divNum, subNum, ha, hb, hxi, hba]
      have hgmono : Monotone (fun v => max 0 (min 1 ((v - a)/(b - a)))) := by
        intro v w hvw
        apply max_le_max le_rfl
        apply min_le_min le_rfl
        exact (div_le_div_iff_of_pos_right hba2).mpr (by linarith)
      have hga : max 0 (min 1 ((a - a)/(b - a))) = 0 := by
        rw [sub_self, zero_div]
        norm_num
      have hgb : max 0 (min 1 ((b - a)/(b - a))) = 1 := by
        rw [div_self (ne_of_gt hba2)]
        norm_num
      have hlo2 : percentileQ (robust_unit_scale x m (2/100) (98/100)) m (2/100)
          = some 0 := by
        rw [hy, percentileQ_map_mono x m _ hgmono, ha, Option.map_some', hga]
      have hhi2 : percentileQ (robust_unit_scale x m (2/100) (98/100)) m (98/100)
          = some 1 := by
        rw [hy, percentileQ_map_mono x m _ hgmono, hb, Option.map_some', hgb]
      have hcell : ∀ i v, robust_unit_scale x m (2/100) (98/100) i = some v →
          0 ≤ v ∧ v ≤ 1 := by
        intro i v hv
        rw [hy] at hv
        simp only at hv
        cases hxi : x i with
        | none => rw [hxi] at hv; exact absurd hv (Option.noConfusion)
        | some w =>
          rw [hxi, Option.map_some'] at hv
          rw [← Option.some_injective _ hv]
          exact ⟨le_max_left _ _, max_le (by norm_num) (min_le_left _ _)⟩
      exact robust_unit_scale_identity_of_unit _ m _ _ hlo2 hhi2 hcell


/-! ## C10: totality and fixed priority of sector classification -/

/-- C10: _classify_sector is total with a fixed priority order: every input
(None, non-string, or any string) is classified as exactly one of the five
sector names; the energy, transport, agriculture and manufacturing keyword
tests are applied in that order on the lower-cased category, so a category
matching both energy and transport keywords is Energy Industries; inputs
matching no keyword, None, and non-strings all default to Residential. -/
theorem classify_sector_total_and_priority :
    (∀ v, classify_sector v = "Energy Industries" ∨ classify_sector v = "Transport"
      ∨ classify_sector v = "Agriculture" ∨ classify_sector v = "Manufacturing"
      ∨ classify_sector v = "Residential") ∧
    (∀ s, matchesAny (lowerStr s) energyTerms = true →
      classify_sector (PyValue.pystr s) = "Energy Industries") ∧
    (∀ s, matchesAny (lowerStr s) energyTerms = false →
      matchesAny (lowerStr s) transportTerms = true →
      classify_sector (PyValue.pystr s) = "Transport") ∧
    (∀ s, matchesAny (lowerStr s) energyTerms = false →
      matchesAny (lowerStr s) transportTerms = false →
      matchesAny (lowerStr s) agricultureTerms = true →
      classify_sector (PyValue.pystr s) = "Agriculture") ∧
    (∀ s, matchesAny (lowerStr s) energyTerms = false →
      matchesAny (lowerStr s) transportTerms = false →
      matchesAny (lowerStr s) agricultureTerms = false →
      matchesAny (lowerStr s) manufacturingTerms = true →
      classify_sector (PyValue.pystr s) = "Manufacturing") ∧
    (∀ s, matchesAny (lowerStr s) energyTerms = false →
      matchesAny (lowerStr s) transportTerms = false →
      matchesAny (lowerStr s) agricultureTerms = false →
      matchesAny (lowerStr s) manufacturingTerms = false →
      classify_sector (PyValue.pystr s) = "Residential") ∧
    classify_sector PyValue.pynone = "Residential" ∧
    classify_sector PyValue.pyother = "Residential" := by
  refine ⟨?_, ?_, ?_, ?_, ?_, ?_, rfl, rfl⟩
  · intro v
    cases v with
    | pynone => simp [classify_sector]
    | pyother => simp [classify_sector]
    | pystr s =>
      simp only [classify_sector]
      by_cases h1 : matchesAny (lowerStr s) energyTerms
      · simp [h1]
      · by_cases h2 : matchesAny (lowerStr s) transportTerms
        · simp [h1, h2]
        · by_cases h3 : matchesAny (lowerStr s) agricultureTerms
          · simp [h1, h2, h3]
          · by_cases h4 : matchesAny (lowerStr s) manufacturingTerms
            · simp [h1, h2, h3, h4]
            · simp [h1, h2, h3, h4]
  · intro s h1
    simp [classify_sector, h1]
  · intro s h1 h2
    simp [classify_sector, h1, h2]
  · intro s h1 h2 h3
    simp [classify_sector, h1, h2, h3]
  · intro s h1 h2 h3 h4
    simp [classify_sector, h1, h2, h3, h4]
  · intro s h1 h2 h3 h4
    simp [classify_sector, h1, h2, h3, h4]

/-- C10 witness: the classification theorem applied to a concrete category
label matching both the energy and transport keyword lists, which is
classified as Energy Industries by priority, and to the None input. -/
theorem classify_sector_total_and_priority_witness :
    matchesAny (lowerStr (String.toList "Road Transport and Energy Industries"))
      energyTerms = true ∧
    matchesAny (lowerStr (String.toList "Road Transport and Energy Industries"))
      transportTerms = true ∧
    classify_sector (PyValue.pystr (String.toList "Road Transport and Energy Industries"))
      = "Energy Industries" ∧
    classify_sector PyValue.pynone = "Residential" :=
  ⟨by decide, by decide,
    classify_sector_total_and_priority.2.1
      (String.toList "Road Transport and Energy Industries") (by decide),
    classify_sector_total_and_priority.2.2.2.2.2.2.1⟩


end GHG
